import Mathlib

/-!
Verification of the `typemapping` type-expression compatibility engine
(`typemapping/origins.py`, `typemapping/type_check.py`, `typemapping/compat.py`).

The Python runtime objects that the engine manipulates are shallowly embedded:

* `PyClass` enumerates every origin identifier that occurs in the engine's
  static tables together with the scalar classes used in queries.  The
  `typing` spellings (`typing.List`, `typing.OrderedDict`, ...) are distinct
  objects from the runtime classes (`list`, `collections.OrderedDict`, ...) in
  Python (`typing.List == list` is `False`), so they are distinct constructors.
* `Ty` is the universe of type expressions: a bare class, a parameterized
  generic (`List[int]` has origin `list` and args `(int,)`), a union
  (`Union[...]`/`Optional[...]` — Python represents both as a `Union` object),
  an `Annotated[...]` wrapper, `Any`, and opaque non-type metadata payloads.
* `PyVal` is the universe of runtime values fed to `extended_isinstance`.

Functions with non-structural recursion (both arguments shrink along
different paths) are embedded with an explicit recursion budget (`Nat` fuel)
that is always sufficient: the exported wrappers pass the sum of the
structural sizes (`tySize`/`pvSize`) of the two arguments, which strictly
exceeds the recursion depth, and fuel-irrelevance lemmas below show the
budget never runs out.  `safe_issubclass` keeps its fuel parameter
visible because there it is semantic: it models the Python stack budget whose
exhaustion raises `RecursionError`, which the function catches.
-/

/-- An origin identifier object: a runtime class, an abstract base class, a
`typing` alias object (distinct from its runtime class under Python `==`),
a callable/generator runtime type, or a scalar class. -/
inductive PyClass where
  | list | tuple | set | frozenset | dict
  | defaultdict | odict | counter | chainmap | deque
  | tyList | tyTuple | tySet | tyFrozenSet | tyDict
  | tyDefaultDict | tyOrderedDict | tyCounter | tyChainMap | tyDeque
  | tyCallable | tyGenerator
  | seqA | mutSeqA | iterA | contA | mapA | mutMapA
  | setA | mutSetA | callA | genA | iteratorA
  | funcT | genT
  | intC | boolC | strC | floatC | noneT
deriving DecidableEq, Repr

/-- Value of `get_origin(t) or t` as the source computes it: either a class
object, the `Union` special form, the `Annotated` special form, `Any`, or a
non-type object standing in type position (e.g. an `Annotated` metadata
payload, compared by `==` only). -/
inductive TyOrigin where
  | pc (c : PyClass)
  | unionO
  | annotatedO
  | anyO
  | metaO (s : String)
deriving DecidableEq, Repr

/-- A Python type expression.  `generic c args` is a parameterized alias whose
`get_origin` is the class `c` (so bare `typing.List` is `generic .list []`,
matching `get_origin(List) is list` and `get_args(List) == ()`), `union` is a
`Union[...]` object (`Optional[T]` is `Union[T, None]` at runtime), and
`metaVal` is an opaque non-type object. -/
inductive Ty where
  | cls (c : PyClass)
  | generic (c : PyClass) (args : List Ty)
  | union (args : List Ty)
  | annotated (base : Ty) (meta : List Ty)
  | anyTy
  | metaVal (s : String)

/-- Python's identity test `t is type(None)` (and equally `t == type(None)`)
on a type expression: true exactly for the `NoneType` class object. -/
def isNoneType : Ty → Bool
  | .cls .noneT => true
  | _ => false

/-- Python's identity test `t is Any` on a type expression. -/
def isAnyTy : Ty → Bool
  | .anyTy => true
  | _ => false

/-- A runtime value passed to `extended_isinstance`. -/
inductive PyVal where
  | vNone
  | vBool (b : Bool)
  | vInt (n : Int)
  | vStr (s : String)
  | vList (xs : List PyVal)
  | vTuple (xs : List PyVal)
  | vSet (xs : List PyVal)
  | vDict (kvs : List (PyVal × PyVal))

mutual

/-- Structural size of a type expression, used as the recursion budget for
the fueled functions below. -/
def tySize : Ty → Nat
  | .cls _ => 1
  | .generic _ args => 1 + tySizeList args
  | .union args => 1 + tySizeList args
  | .annotated base meta => 1 + tySize base + tySizeList meta
  | .anyTy => 1
  | .metaVal _ => 1

/-- Structural size of a list of type expressions. -/
def tySizeList : List Ty → Nat
  | [] => 1
  | t :: ts => 1 + tySize t + tySizeList ts

end

mutual

/-- Structural size of a runtime value. -/
def pvSize : PyVal → Nat
  | .vNone => 1
  | .vBool _ => 1
  | .vInt _ => 1
  | .vStr _ => 1
  | .vList xs => 1 + pvSizeList xs
  | .vTuple xs => 1 + pvSizeList xs
  | .vSet xs => 1 + pvSizeList xs
  | .vDict kvs => 1 + pvSizePairs kvs

/-- Structural size of a list of runtime values. -/
def pvSizeList : List PyVal → Nat
  | [] => 1
  | v :: vs => 1 + pvSize v + pvSizeList vs

/-- Structural size of a list of key/value pairs. -/
def pvSizePairs : List (PyVal × PyVal) → Nat
  | [] => 1
  | p :: ps => 1 + pvSize p.1 + pvSize p.2 + pvSizePairs ps

end

/-- Computes `get_origin(t) or t`, the expression the source uses everywhere
it needs an origin (`type_check.py` lines 90-91, `origins.py` line 117). -/
def originOf : Ty → TyOrigin
  | .cls c => .pc c
  | .generic c _ => .pc c
  | .union _ => .unionO
  | .annotated _ _ => .annotatedO
  | .anyTy => .anyO
  | .metaVal s => .metaO s

/-- Computes `typing.get_args`: members for a union, parameters for a generic,
`(base, *metadata)` for `Annotated`, and `()` for everything else. -/
def argsOf : Ty → List Ty
  | .cls _ => []
  | .generic _ args => args
  | .union args => args
  | .annotated base meta => base :: meta
  | .anyTy => []
  | .metaVal _ => []

/-- True for objects on which Python's `inspect.isclass` is true: runtime
classes, abstract base classes, and scalar classes, but not `typing` alias
objects (`inspect.isclass(typing.List)` is `False`). -/
def isRealClass : PyClass → Bool
  | .tyList | .tyTuple | .tySet | .tyFrozenSet | .tyDict
  | .tyDefaultDict | .tyOrderedDict | .tyCounter | .tyChainMap | .tyDeque
  | .tyCallable | .tyGenerator => false
  | _ => true

/-- Ancestors of a class under Python's `issubclass`, including the class
itself and the `collections.abc` virtual-subclass registrations (e.g.
`issubclass(list, Sequence)` and `issubclass(str, Sequence)` are `True`). -/
def pyAncestors : PyClass → List PyClass
  | .list => [.list, .mutSeqA, .seqA, .iterA, .contA]
  | .tuple => [.tuple, .seqA, .iterA, .contA]
  | .set => [.set, .mutSetA, .setA, .iterA, .contA]
  | .frozenset => [.frozenset, .setA, .iterA, .contA]
  | .dict => [.dict, .mutMapA, .mapA, .iterA, .contA]
  | .defaultdict => [.defaultdict, .dict, .mutMapA, .mapA, .iterA, .contA]
  | .odict => [.odict, .dict, .mutMapA, .mapA, .iterA, .contA]
  | .counter => [.counter, .dict, .mutMapA, .mapA, .iterA, .contA]
  | .chainmap => [.chainmap, .mutMapA, .mapA, .iterA, .contA]
  | .deque => [.deque, .mutSeqA, .seqA, .iterA, .contA]
  | .seqA => [.seqA, .iterA, .contA]
  | .mutSeqA => [.mutSeqA, .seqA, .iterA, .contA]
  | .iterA => [.iterA]
  | .contA => [.contA]
  | .mapA => [.mapA, .iterA, .contA]
  | .mutMapA => [.mutMapA, .mapA, .iterA, .contA]
  | .setA => [.setA, .iterA, .contA]
  | .mutSetA => [.mutSetA, .setA, .iterA, .contA]
  | .callA => [.callA]
  | .genA => [.genA, .iteratorA, .iterA]
  | .iteratorA => [.iteratorA, .iterA]
  | .funcT => [.funcT, .callA]
  | .genT => [.genT, .genA, .iteratorA, .iterA]
  | .intC => [.intC]
  | .boolC => [.boolC, .intC]
  | .strC => [.strC, .seqA, .iterA, .contA]
  | .floatC => [.floatC]
  | .noneT => [.noneT]
  | c => [c]

/-- Python's `issubclass` restricted to class arguments (total there). -/
def pySubclass (c k : PyClass) : Bool := (pyAncestors c).contains k

/-- The value sets of `_EQUIV_ORIGIN` (`origins.py` lines 41-85), in source
order.  `OrderedDict`, `Counter`, `ChainMap`, `DefaultDict` and `Deque` are
imported there from `typing`, so those entries hold the `typing` alias
objects, while `defaultdict` and `deque` are the `collections` classes.  The
Python 3.9+ update (lines 88-96) only re-adds members already present. -/
def equivSets : List (List PyClass) :=
  [ [.list, .tyList, .seqA, .mutSeqA, .iterA, .contA],
    [.tuple, .tyTuple, .seqA, .iterA, .contA],
    [.set, .tySet, .setA, .mutSetA, .iterA, .contA],
    [.frozenset, .tyFrozenSet, .setA, .iterA, .contA],
    [.dict, .tyDict, .mapA, .mutMapA, .contA],
    [.defaultdict, .tyDefaultDict, .dict, .tyDict, .mapA, .mutMapA, .contA],
    [.tyOrderedDict, .dict, .tyDict, .mapA, .mutMapA, .contA],
    [.tyCounter, .dict, .tyDict, .mapA, .mutMapA, .contA],
    [.tyChainMap, .mapA, .mutMapA, .contA],
    [.deque, .tyDeque, .mutSeqA, .seqA, .iterA, .contA],
    [.funcT, .tyCallable, .callA],
    [.genT, .tyGenerator, .genA, .iteratorA, .iterA],
    [.deque, .list, .tuple, .seqA, .mutSeqA, .iterA, .contA] ]

/-- Membership of an origin object in an equivalence set (`o1 in equiv_set`):
only class objects can be members. -/
def setContains (s : List PyClass) : TyOrigin → Bool
  | .pc c => s.contains c
  | _ => false

/-- True when some registered equivalence set contains both origins (the scan
in `is_equivalent_origin`, `origins.py` lines 124-126). -/
def sameEquivClass (o1 o2 : TyOrigin) : Bool :=
  equivSets.any fun s => setContains s o1 && setContains s o2

/-- Origin-level `is_equivalent_origin`: what `origins.is_equivalent_origin`
computes when both arguments are already bare origin objects, as at every
call site inside `type_check.py` (`_is_subtype_origin`,
`_check_runtime_origin_compatibility`, `_validate_generic_args`,
`_is_collection_specialization_subtype`).  On such arguments `get_origin`
returns `None` and `get_args` returns `()`, so the union branch of
`_handle_union_compatibility` quantifies over no members and yields `False`
(two bare `Union` forms are caught earlier by `o1 == o2`). -/
def is_equivalent_origin_o (o1 o2 : TyOrigin) : Bool :=
  if o1 = o2 then true
  else if sameEquivClass o1 o2 then true
  else if o1 = .unionO ∨ o2 = .unionO then false
  else false

/-- The `specialization_map` of `_is_collection_specialization_subtype`
(`type_check.py` lines 381-407): both the `collections` classes and the
`typing` aliases are keys. -/
def specBase : PyClass → Option PyClass
  | .counter => some .dict
  | .odict => some .dict
  | .chainmap => some .dict
  | .tyCounter => some .dict
  | .tyOrderedDict => some .dict
  | .tyChainMap => some .dict
  | .defaultdict => some .dict
  | .deque => some .list
  | _ => none

/-- Implements `_is_collection_specialization_subtype` (`type_check.py`
lines 381-415). -/
def is_collection_specialization_subtype (subO supO : TyOrigin) : Bool :=
  match subO with
  | .pc c =>
      match specBase c with
      | some base => supO = .pc base || is_equivalent_origin_o (.pc base) supO
      | none => false
  | _ => false

/-- The `concrete_to_abstract` table of `_is_abstraction_compatible`
(`type_check.py` lines 430-457); `List`, `Dict`, `Set`, `Tuple`, `FrozenSet`
there are the `typing` aliases. -/
def concreteToAbstract : PyClass → Option (List PyClass)
  | .list => some [.tyList, .seqA, .mutSeqA, .iterA, .contA]
  | .dict => some [.tyDict, .mapA, .mutMapA, .contA]
  | .set => some [.tySet, .iterA, .contA]
  | .tuple => some [.tyTuple, .seqA, .iterA, .contA]
  | .frozenset => some [.tyFrozenSet, .iterA, .contA]
  | .defaultdict =>
      some [.defaultdict, .tyDefaultDict, .dict, .tyDict, .mapA, .mutMapA, .contA]
  | .deque => some [.deque, .mutSeqA, .seqA, .iterA, .contA]
  | .counter => some [.counter, .dict, .tyDict, .mapA, .mutMapA, .contA]
  | .odict => some [.odict, .dict, .tyDict, .mapA, .mutMapA, .contA]
  | .chainmap => some [.chainmap, .mapA, .mutMapA, .contA]
  | .tyCounter => some [.tyCounter, .dict, .tyDict, .mapA, .mutMapA, .contA]
  | .tyOrderedDict => some [.tyOrderedDict, .dict, .tyDict, .mapA, .mutMapA, .contA]
  | .tyChainMap => some [.tyChainMap, .mapA, .mutMapA, .contA]
  | _ => none

/-- The directed abstraction edge relation: `c` has a registered edge to `k`
when `c` is a key of `concrete_to_abstract` and `k` is in its value set. -/
def abstractEdge (c k : PyClass) : Bool :=
  match concreteToAbstract c with
  | some s => s.contains k
  | none => false

/-- Implements `_is_abstraction_compatible` (`type_check.py` lines 418-464). -/
def is_abstraction_compatible (subO supO : TyOrigin) : Bool :=
  match subO with
  | .pc c =>
      match concreteToAbstract c with
      | some s => setContains s supO
      | none => subO = supO
  | _ => subO = supO

/-- A raised Python exception relevant to the engine's handlers. -/
inductive PyErr where
  | typeError
  | attributeError
  | recursionError
deriving DecidableEq, Repr

/-- Python's builtin `issubclass c classinfo` for a class `c`: a bare
`typing` alias as `classinfo` delegates to its origin class
(`issubclass(list, typing.List)` is `True`), while a subscripted generic, a
union, `Any` (3.10 semantics), an `Annotated`, or a non-type object raises
`TypeError`. -/
def issubclassPrim (c : PyClass) (classinfo : Ty) : Except PyErr Bool :=
  match classinfo with
  | .cls k => if isRealClass k then .ok (pySubclass c k) else .error .typeError
  | .generic k [] => if isRealClass k then .ok (pySubclass c k) else .error .typeError
  | _ => .error .typeError

/-- Implements `_is_subtype_origin` (`type_check.py` lines 349-378).  The
`try ... except TypeError` around the nominal fallback is the `match` on
`issubclassPrim`; the `inspect.isclass` guard is `isRealClass`. -/
def is_subtype_origin (subO supO : TyOrigin) : Bool :=
  if subO = supO then true
  else if is_collection_specialization_subtype subO supO then true
  else if is_equivalent_origin_o subO supO then is_abstraction_compatible subO supO
  else
    match subO, supO with
    | .pc c1, .pc c2 =>
        if isRealClass c1 && isRealClass c2 then
          match issubclassPrim c1 (.cls c2) with
          | .ok b => b
          | .error _ => false
        else false
    | _, _ => false

/-- Implements `_is_union_type` (`type_check.py` line 330): `get_origin(t) is
Union`. -/
def is_union_type (t : Ty) : Bool := originOf t = .unionO

/-- Implements `_is_optional_type` (`type_check.py` lines 335-340): a union
whose `get_args` has exactly two members, one of which is `type(None)`. -/
def is_optional_type (t : Ty) : Bool :=
  if !is_union_type t then false
  else
    let args := argsOf t
    args.length = 2 && args.any isNoneType

/-- Implements `_get_optional_inner_type` (`type_check.py` lines 343-346):
the first member that is not `type(None)`.  The source raises
`StopIteration` when every member is `type(None)`; that case is unreachable
from its callers, and the model returns `type(None)` there. -/
def optInner (t : Ty) : Ty :=
  (((argsOf t).filter fun a => !isNoneType a)).headD (.cls .noneT)

/-- Fueled body of `origins.is_equivalent_origin` (`origins.py` lines
99-132) together with `_handle_union_compatibility` (lines 216-228), which
it mutually recurses with through union members.  The fuel only bounds the
recursion depth; `is_equivalent_origin` below always supplies enough. -/
def eqoF : Nat → Ty → Ty → Bool
  | 0, _, _ => false
  | n + 1, t1, t2 =>
    if originOf t1 = originOf t2 then true
    else if sameEquivClass (originOf t1) (originOf t2) then true
    else if originOf t1 = .unionO ∨ originOf t2 = .unionO then
      -- `_handle_union_compatibility`
      if originOf t1 = .unionO ∧ ¬originOf t2 = .unionO then
        (argsOf t1).any fun a => eqoF n a t2
      else if originOf t2 = .unionO ∧ ¬originOf t1 = .unionO then
        (argsOf t2).any fun a => eqoF n t1 a
      else if originOf t1 = .unionO ∧ originOf t2 = .unionO then
        (argsOf t1).any fun a => (argsOf t2).any fun b => eqoF n a b
      else false
    else false

/-- Implements `origins.is_equivalent_origin` on full type expressions. -/
def is_equivalent_origin (t1 t2 : Ty) : Bool :=
  eqoF (tySize t1 + tySize t2) t1 t2

/-- Fueled body of `origins.is_fully_compatible` (`origins.py` lines
194-213), with the body of `are_args_compatible` (lines 166-191) inlined —
the two functions are mutually recursive through argument pairs. -/
def ifcF : Nat → Ty → Ty → Bool
  | 0, _, _ => false
  | n + 1, t1, t2 =>
    if !is_equivalent_origin t1 t2 then false
    else
      -- `are_args_compatible`
      if (argsOf t1).isEmpty && (argsOf t2).isEmpty then true
      else if (argsOf t1).isEmpty != (argsOf t2).isEmpty then false
      else if ¬(argsOf t1).length = (argsOf t2).length then false
      else ((argsOf t1).zip (argsOf t2)).all fun p => ifcF n p.1 p.2

/-- Implements `origins.is_fully_compatible`. -/
def is_fully_compatible (t1 t2 : Ty) : Bool :=
  ifcF (tySize t1 + tySize t2) t1 t2

/-- Implements `origins.are_args_compatible` (`origins.py` lines 166-191). -/
def are_args_compatible (t1 t2 : Ty) : Bool :=
  if (argsOf t1).isEmpty && (argsOf t2).isEmpty then true
  else if (argsOf t1).isEmpty != (argsOf t2).isEmpty then false
  else if ¬(argsOf t1).length = (argsOf t2).length then false
  else ((argsOf t1).zip (argsOf t2)).all fun p => is_fully_compatible p.1 p.2

/-- Fueled body of `extended_issubclass` (`type_check.py` lines 48-133),
with `_is_covariant_arg` (lines 467-480) inlined at the covariance step.
The two `Optional` branches (lines 96-111) are kept even though they are
unreachable: `_is_optional_type` implies `_is_union_type`, and both union
cases return earlier. -/
def extIssubF : Nat → Ty → Ty → Bool
  | 0, _, _ => false
  | n + 1, subty, supty =>
    if is_union_type supty then
      -- subtype <: Union[A, B] if subtype <: A or subtype <: B
      (argsOf supty).any fun a => extIssubF n subty a
    else if is_union_type subty then
      -- Union[A, B] <: supertype if A <: supertype and B <: supertype
      (argsOf subty).all fun a => extIssubF n a supty
    else if is_optional_type supty then
      -- dead in the source: an Optional supertype is a union, handled above
      (if is_optional_type subty then extIssubF n (optInner subty) (optInner supty)
       else extIssubF n subty (optInner supty))
    else if is_optional_type subty then
      -- dead in the source for the same reason
      (if is_optional_type supty || is_union_type supty then
        (argsOf supty).any fun a => extIssubF n subty a
       else false)
    else
      if !is_subtype_origin (originOf subty) (originOf supty) then false
      else if (argsOf subty).isEmpty && (argsOf supty).isEmpty then true
      else if (argsOf subty).isEmpty != (argsOf supty).isEmpty then false
      else if ¬(argsOf subty).length = (argsOf supty).length then false
      else
        ((argsOf subty).zip (argsOf supty)).all fun p =>
          -- `_is_covariant_arg`: `super_arg is Any` / `sub_arg is Any`
          if isAnyTy p.2 then true
          else if isAnyTy p.1 then false
          else extIssubF n p.1 p.2

/-- Implements `extended_issubclass`. -/
def extended_issubclass (subty supty : Ty) : Bool :=
  extIssubF (tySize subty + tySize supty) subty supty

/-- Implements `_is_covariant_arg` as a standalone function (its body is
inlined in `extIssubF` for the recursion). -/
def is_covariant_arg (subArg supArg : Ty) : Bool :=
  if isAnyTy supArg then true
  else if isAnyTy subArg then false
  else extended_issubclass subArg supArg

/-- Value of `get_origin(cls)` followed by the `inspect.isclass` test in
`safe_issubclass` (`type_check.py` lines 315-323): the class that ends up
passed to `issubclass`, if any. -/
def originClassOf : Ty → Option PyClass
  | .cls k => if isRealClass k then some k else none
  | .generic k _ => if isRealClass k then some k else none
  | _ => none

/-- Implements `safe_issubclass` (`type_check.py` lines 277-325).  The fuel
is the remaining interpreter stack budget: the only recursion is through
union members, and when the budget is exhausted the attempted call raises
`RecursionError`, which the enclosing `except (TypeError, AttributeError,
RecursionError)` converts to `False`.  Errors from `issubclass` itself
(non-class `classinfo`) are caught by the same handler. -/
def safe_issubclass : Nat → Option Ty → Ty → Bool
  | _, none, _ => false
  | fuel, some c, classinfo =>
    if is_union_type c then
      match fuel with
      | 0 => false
      | n + 1 => (argsOf c).all fun a => safe_issubclass n (some a) classinfo
    else
      match originClassOf c with
      | some k =>
          match issubclassPrim k classinfo with
          | .ok b => b
          | .error _ => false
      | none => false

/-- Python `type(obj)` for the embedded runtime values. -/
def typeOf : PyVal → PyClass
  | .vNone => .noneT
  | .vBool _ => .boolC
  | .vInt _ => .intC
  | .vStr _ => .strC
  | .vList _ => .list
  | .vTuple _ => .tuple
  | .vSet _ => .set
  | .vDict _ => .dict

/-- Python truthiness `bool(obj)` of a runtime value (`if not obj: ...`). -/
def truthy : PyVal → Bool
  | .vNone => false
  | .vBool b => b
  | .vInt n => !(n = 0)
  | .vStr s => !(s = "")
  | .vList xs => !xs.isEmpty
  | .vTuple xs => !xs.isEmpty
  | .vSet xs => !xs.isEmpty
  | .vDict kvs => !kvs.isEmpty

/-- Elements produced by `for item in obj`, when `obj` is iterable: list,
tuple and set members, a dict's keys, a string's one-character strings.
`none` models the `TypeError` raised for non-iterable values, which the
`except` in `_validate_generic_args` turns into `False`. -/
def iterElems : PyVal → Option (List PyVal)
  | .vList xs => some xs
  | .vTuple xs => some xs
  | .vSet xs => some xs
  | .vDict kvs => some (kvs.map fun p => p.1)
  | .vStr s => some (s.toList.map fun ch => .vStr (String.mk [ch]))
  | _ => none

/-- Value of `len(obj)` for values with `__len__` (`hasattr(obj, "__len__")`
is false for the others, in which case the validators use 10 directly). -/
def lenOf : PyVal → Option Nat
  | .vList xs => some xs.length
  | .vTuple xs => some xs.length
  | .vSet xs => some xs.length
  | .vDict kvs => some kvs.length
  | .vStr s => some s.length
  | _ => none

/-- Implements `_check_runtime_origin_compatibility` (`type_check.py` lines
483-498): the equivalence test, then the guarded nominal fallback whose
`try ... except` yields `False` on failure. -/
def check_runtime_origin_compatibility (objType : PyClass) (target : TyOrigin) : Bool :=
  if is_equivalent_origin_o (.pc objType) target then true
  else
    match target with
    | .pc k => if isRealClass k then (objType = k || pySubclass objType k) else false
    | _ => false

/-- Computes `min(10, len(obj)) if hasattr(obj, "__len__") else 10`, the
sample bound shared by the three validators. -/
def sampleSize (obj : PyVal) : Nat :=
  match lenOf obj with
  | some l => min 10 l
  | none => 10

/-- Fueled body of `extended_isinstance` (`type_check.py` lines 136-191)
with `_validate_generic_args` and the three `_validate_*_args` helpers
(lines 501-610) inlined, since they recurse back into
`extended_isinstance` on container elements.  The `Optional` branch (lines
171-175) is unreachable in the source — an `Optional` hint is a union,
handled by the first branch — but is kept faithfully.  The `except
(TypeError, AttributeError)` of `_validate_generic_args` appears as the
`false` results for values that cannot be iterated (sequence/set case) or
have no `.items()` (mapping case). -/
def extIsinstF : Nat → PyVal → Ty → Bool
  | 0, _, _ => false
  | n + 1, obj, hint =>
    if is_union_type hint then
      (argsOf hint).any fun a => extIsinstF n obj a
    else if is_optional_type hint then
      -- dead in the source: an Optional hint is a union, handled above
      (match obj with
       | .vNone => true
       | _ => extIsinstF n obj (optInner hint))
    else
      if !check_runtime_origin_compatibility (typeOf obj) (originOf hint) then false
      else if (argsOf hint).isEmpty then true
      else
        -- `_validate_generic_args`
        if originOf hint = .pc .list ∨ originOf hint = .pc .tuple ∨
            is_equivalent_origin_o (originOf hint) (.pc .list) then
          -- `_validate_sequence_args`
          match argsOf hint with
          | [] => true
          | elemTy :: _ =>
            if !truthy obj then true
            else if isAnyTy elemTy then true
            else
              match iterElems obj with
              | none => false
              | some items =>
                  (items.take (sampleSize obj)).all fun it => extIsinstF n it elemTy
        else if originOf hint = .pc .dict ∨
            is_equivalent_origin_o (originOf hint) (.pc .dict) then
          -- `_validate_mapping_args`
          match argsOf hint with
          | keyTy :: valTy :: _ =>
            if !truthy obj then true
            else if isAnyTy keyTy && isAnyTy valTy then true
            else
              (match obj with
               | .vDict kvs =>
                   (kvs.take (sampleSize obj)).all fun p =>
                     (isAnyTy keyTy || extIsinstF n p.1 keyTy) &&
                     (isAnyTy valTy || extIsinstF n p.2 valTy)
               | _ => false)
          | _ => true
        else if originOf hint = .pc .set ∨ originOf hint = .pc .frozenset ∨
            is_equivalent_origin_o (originOf hint) (.pc .set) then
          -- `_validate_set_args`
          match argsOf hint with
          | [] => true
          | elemTy :: _ =>
            if !truthy obj then true
            else if isAnyTy elemTy then true
            else
              match iterElems obj with
              | none => false
              | some items =>
                  (items.take (sampleSize obj)).all fun it => extIsinstF n it elemTy
        else true

/-- Implements `extended_isinstance`. -/
def extended_isinstance (obj : PyVal) (hint : Ty) : Bool :=
  extIsinstF (pvSize obj + tySize hint) obj hint

/-- Implements `compat.is_annotated_type` on Python 3.9+ (`compat.py` lines
146-171): `get_origin(tp)` is one of the `Annotated` forms. -/
def is_annotated_type (tp : Ty) : Bool :=
  originOf tp = .annotatedO

/-- Implements `compat.strip_annotated` (`compat.py` lines 174-184). -/
def strip_annotated (tp : Ty) : Ty :=
  if is_annotated_type tp then
    match argsOf tp with
    | a :: _ => a
    | [] => tp
  else tp

/-- Implements `compat.get_annotated_metadata` on Python 3.9+ (`compat.py`
lines 187-206): `args[1:]` when `len(args) > 1`, else the empty tuple (the
3.8-only `__metadata__` fallback is version-dead). -/
def get_annotated_metadata (tp : Ty) : List Ty :=
  if is_annotated_type tp then
    match argsOf tp with
    | _ :: m :: rest => m :: rest
    | _ => []
  else []

/-- A type expression with no union (hence no `Optional`) anywhere inside.
Python builds every union via the `Union[...]`/`Optional[...]` forms, so
this is decidable syntactically on the embedded expression. -/
inductive UnionFree : Ty → Prop where
  | cls (c : PyClass) : UnionFree (.cls c)
  | anyTy : UnionFree .anyTy
  | metaVal (s : String) : UnionFree (.metaVal s)
  | generic (c : PyClass) (args : List Ty) :
      (∀ a ∈ args, UnionFree a) → UnionFree (.generic c args)
  | annotated (base : Ty) (meta : List Ty) :
      UnionFree base → (∀ a ∈ meta, UnionFree a) → UnionFree (.annotated base meta)

/-- True when the expression is not an `Annotated` wrapped directly around
another `Annotated`.  Python's `Annotated[...]` constructor flattens nested
wrappers at construction time, so every constructible expression satisfies
this. -/
def noNestedAnnotated : Ty → Bool
  | .annotated base _ => !is_annotated_type base
  | _ => true

set_option maxRecDepth 10000

theorem listAny_congr {α : Type} {l : List α} {f g : α → Bool}
    (h : ∀ a ∈ l, f a = g a) : l.any f = l.any g := by
  induction l with
  | nil => rfl
  | cons x xs ih =>
    simp only [List.any_cons, h x (List.mem_cons_self x xs),
      ih fun a ha => h a (List.mem_cons_of_mem x ha)]

theorem listAll_congr {α : Type} {l : List α} {f g : α → Bool}
    (h : ∀ a ∈ l, f a = g a) : l.all f = l.all g := by
  induction l with
  | nil => rfl
  | cons x xs ih =>
    simp only [List.all_cons, h x (List.mem_cons_self x xs),
      ih fun a ha => h a (List.mem_cons_of_mem x ha)]

theorem tySize_pos (t : Ty) : 0 < tySize t := by
  cases t <;> simp [tySize]

theorem pvSize_pos (v : PyVal) : 0 < pvSize v := by
  cases v <;> simp [pvSize]

theorem tySize_lt_of_mem {a : Ty} {l : List Ty} (h : a ∈ l) :
    tySize a < tySizeList l := by
  induction l with
  | nil => cases h
  | cons x xs ih =>
    rcases List.mem_cons.mp h with rfl | h2
    · simp [tySizeList]; omega
    · have := ih h2; simp [tySizeList]; omega

theorem tySize_lt_of_mem_argsOf {a t : Ty} (h : a ∈ argsOf t) :
    tySize a < tySize t := by
  cases t with
  | cls c => simp [argsOf] at h
  | generic c args =>
    simp only [argsOf] at h
    have := tySize_lt_of_mem h; simp [tySize]; omega
  | union args =>
    simp only [argsOf] at h
    have := tySize_lt_of_mem h; simp [tySize]; omega
  | annotated base meta =>
    simp only [argsOf] at h
    rcases List.mem_cons.mp h with rfl | h2
    · simp [tySize]; omega
    · have := tySize_lt_of_mem h2; simp [tySize]; omega
  | anyTy => simp [argsOf] at h
  | metaVal s => simp [argsOf] at h

theorem pvSize_lt_of_mem {a : PyVal} {l : List PyVal} (h : a ∈ l) :
    pvSize a < pvSizeList l := by
  induction l with
  | nil => cases h
  | cons x xs ih =>
    rcases List.mem_cons.mp h with rfl | h2
    · simp [pvSizeList]; omega
    · have := ih h2; simp [pvSizeList]; omega

theorem pvSize_pair_lt_of_mem {p : PyVal × PyVal} {l : List (PyVal × PyVal)}
    (h : p ∈ l) : pvSize p.1 + pvSize p.2 < pvSizePairs l := by
  induction l with
  | nil => cases h
  | cons x xs ih =>
    rcases List.mem_cons.mp h with rfl | h2
    · simp [pvSizePairs]; omega
    · have := ih h2; simp [pvSizePairs]; omega

theorem pvSize_le_of_mem_iterElems {obj : PyVal} {items : List PyVal} {it : PyVal}
    (h : iterElems obj = some items) (hm : it ∈ items) : pvSize it ≤ pvSize obj := by
  cases obj with
  | vList xs =>
    simp only [iterElems, Option.some.injEq] at h
    subst h
    have := pvSize_lt_of_mem hm; simp [pvSize]; omega
  | vTuple xs =>
    simp only [iterElems, Option.some.injEq] at h
    subst h
    have := pvSize_lt_of_mem hm; simp [pvSize]; omega
  | vSet xs =>
    simp only [iterElems, Option.some.injEq] at h
    subst h
    have := pvSize_lt_of_mem hm; simp [pvSize]; omega
  | vDict kvs =>
    simp only [iterElems, Option.some.injEq] at h
    subst h
    obtain ⟨p, hp, rfl⟩ := List.mem_map.mp hm
    have := pvSize_pair_lt_of_mem hp; simp [pvSize]; omega
  | vStr s =>
    simp only [iterElems, Option.some.injEq] at h
    subst h
    obtain ⟨ch, hch, rfl⟩ := List.mem_map.mp hm
    simp [pvSize]
  | vNone => simp [iterElems] at h
  | vBool b => simp [iterElems] at h
  | vInt n => simp [iterElems] at h

theorem opt_imp_union {t : Ty} (h : is_optional_type t = true) :
    is_union_type t = true := by
  cases hv : is_union_type t
  · exfalso
    unfold is_optional_type at h
    rw [hv] at h
    simp at h
  · rfl

theorem extIssubF_congr :
    ∀ n m s p, tySize s + tySize p ≤ n → tySize s + tySize p ≤ m →
      extIssubF n s p = extIssubF m s p := by
  intro n
  induction n with
  | zero =>
    intro m s p hn _
    have := tySize_pos s
    have := tySize_pos p
    omega
  | succ n ih =>
    intro m s p hn hm
    have hps := tySize_pos s
    have hpp := tySize_pos p
    cases m with
    | zero => omega
    | succ m =>
      simp only [extIssubF]
      by_cases hu1 : is_union_type p = true
      · simp only [hu1, if_true]
        refine listAny_congr fun a ha => ?_
        have hlt := tySize_lt_of_mem_argsOf ha
        exact ih m s a (by omega) (by omega)
      · simp only [hu1, if_false]
        by_cases hu2 : is_union_type s = true
        · simp only [hu2, if_true]
          refine listAll_congr fun a ha => ?_
          have hlt := tySize_lt_of_mem_argsOf ha
          exact ih m a p (by omega) (by omega)
        · simp only [hu2, if_false]
          by_cases ho1 : is_optional_type p = true
          · exact absurd (opt_imp_union ho1) hu1
          · simp only [ho1, if_false]
            by_cases ho2 : is_optional_type s = true
            · exact absurd (opt_imp_union ho2) hu2
            · simp only [ho2, if_false]
              by_cases hso : is_subtype_origin (originOf s) (originOf p) = true
              · simp only [hso, Bool.not_true, Bool.false_eq_true, if_false]
                by_cases he1 : ((argsOf s).isEmpty && (argsOf p).isEmpty) = true
                · simp only [he1, if_true]
                · simp only [he1, if_false]
                  by_cases he2 : ((argsOf s).isEmpty != (argsOf p).isEmpty) = true
                  · simp only [he2, if_true]
                  · simp only [he2, if_false]
                    by_cases hl : (argsOf s).length = (argsOf p).length
                    · simp only [hl, not_true, if_false]
                      refine listAll_congr fun q hq => ?_
                      obtain ⟨a, b⟩ := q
                      obtain ⟨ha, hb⟩ := List.of_mem_zip hq
                      have hla := tySize_lt_of_mem_argsOf ha
                      have hlb := tySize_lt_of_mem_argsOf hb
                      by_cases hb2 : isAnyTy b = true
                      · simp only [hb2, if_true]
                      · simp only [hb2, if_false]
                        by_cases ha2 : isAnyTy a = true
                        · simp only [ha2, if_true]
                        · simp only [ha2, if_false]
                          exact ih m a b (by omega) (by omega)
                    · simp only [hl, not_false_iff, if_true]
              · have hso2 : is_subtype_origin (originOf s) (originOf p) = false :=
                  Bool.not_eq_true _ ▸ Bool.of_not_eq_true hso
                simp [hso2]

theorem extIssubF_eq_wrapper {n : Nat} {s p : Ty} (h : tySize s + tySize p ≤ n) :
    extIssubF n s p = extended_issubclass s p :=
  extIssubF_congr n (tySize s + tySize p) s p h (Nat.le_refl _)

theorem extIsinstF_congr :
    ∀ n m v t, pvSize v + tySize t ≤ n → pvSize v + tySize t ≤ m →
      extIsinstF n v t = extIsinstF m v t := by
  intro n
  induction n with
  | zero =>
    intro m v t hn _
    have := pvSize_pos v
    have := tySize_pos t
    omega
  | succ n ih =>
    intro m v t hn hm
    have hpv := pvSize_pos v
    have hpt := tySize_pos t
    cases m with
    | zero => omega
    | succ m =>
      simp only [extIsinstF]
      by_cases hu : is_union_type t = true
      · simp only [hu, if_true]
        refine listAny_congr fun a ha => ?_
        have hlt := tySize_lt_of_mem_argsOf ha
        exact ih m v a (by omega) (by omega)
      · simp only [hu, if_false]
        by_cases ho : is_optional_type t = true
        · exact absurd (opt_imp_union ho) hu
        · simp only [ho, if_false]
          by_cases hc : check_runtime_origin_compatibility (typeOf v) (originOf t) = true
          · simp only [hc, Bool.not_true, Bool.false_eq_true, if_false]
            by_cases he : (argsOf t).isEmpty = true
            · simp only [he, if_true]
            · simp only [he, if_false]
              by_cases hb1 : (originOf t = .pc .list ∨ originOf t = .pc .tuple ∨
                  is_equivalent_origin_o (originOf t) (.pc .list) = true)
              · simp only [if_pos hb1]
                rcases hargs : argsOf t with _ | ⟨elemTy, rest⟩
                · rfl
                · have helem : tySize elemTy < tySize t :=
                    tySize_lt_of_mem_argsOf (hargs ▸ List.mem_cons_self elemTy rest)
                  by_cases ht : truthy v = true
                  · simp only [ht, Bool.not_true, Bool.false_eq_true, if_false]
                    by_cases hany : isAnyTy elemTy = true
                    · simp only [hany, if_true]
                    · simp only [hany, if_false]
                      rcases hit : iterElems v with _ | items
                      · rfl
                      · refine listAll_congr fun it hmem => ?_
                        have hmem2 : it ∈ items := List.take_subset _ _ hmem
                        have hle := pvSize_le_of_mem_iterElems hit hmem2
                        exact ih m it elemTy (by omega) (by omega)
                  · have ht2 : truthy v = false := Bool.not_eq_true _ ▸ Bool.of_not_eq_true ht
                    simp [ht2]
              · simp only [if_neg hb1]
                by_cases hb2 : (originOf t = .pc .dict ∨
                    is_equivalent_origin_o (originOf t) (.pc .dict) = true)
                · simp only [if_pos hb2]
                  rcases hargs : argsOf t with _ | ⟨keyTy, _ | ⟨valTy, rest⟩⟩
                  · rfl
                  · rfl
                  · have hkey : tySize keyTy < tySize t :=
                      tySize_lt_of_mem_argsOf (hargs ▸ List.mem_cons_self keyTy _)
                    have hval : tySize valTy < tySize t :=
                      tySize_lt_of_mem_argsOf
                        (hargs ▸ List.mem_cons_of_mem keyTy (List.mem_cons_self valTy rest))
                    by_cases ht : truthy v = true
                    · simp only [ht, Bool.not_true, Bool.false_eq_true, if_false]
                      by_cases hany : (isAnyTy keyTy && isAnyTy valTy) = true
                      · simp only [hany, if_true]
                      · simp only [hany, if_false]
                        cases v with
                        | vDict kvs =>
                          refine listAll_congr fun q hmem => ?_
                          have hmem2 : q ∈ kvs := List.take_subset _ _ hmem
                          have hpair := pvSize_pair_lt_of_mem hmem2
                          have hsz : pvSize q.1 + pvSize q.2 < pvSize (PyVal.vDict kvs) := by
                            simp [pvSize]; omega
                          have h1 := ih m q.1 keyTy (by omega) (by omega)
                          have h2 := ih m q.2 valTy (by omega) (by omega)
                          rw [h1, h2]
                        | vNone => rfl
                        | vBool b => rfl
                        | vInt i => rfl
                        | vStr st => rfl
                        | vList xs => rfl
                        | vTuple xs => rfl
                        | vSet xs => rfl
                    · have ht2 : truthy v = false := Bool.not_eq_true _ ▸ Bool.of_not_eq_true ht
                      simp [ht2]
                · simp only [if_neg hb2]
                  by_cases hb3 : (originOf t = .pc .set ∨ originOf t = .pc .frozenset ∨
                      is_equivalent_origin_o (originOf t) (.pc .set) = true)
                  · simp only [if_pos hb3]
                    rcases hargs : argsOf t with _ | ⟨elemTy, rest⟩
                    · rfl
                    · have helem : tySize elemTy < tySize t :=
                        tySize_lt_of_mem_argsOf (hargs ▸ List.mem_cons_self elemTy rest)
                      by_cases ht : truthy v = true
                      · simp only [ht, Bool.not_true, Bool.false_eq_true, if_false]
                        by_cases hany : isAnyTy elemTy = true
                        · simp only [hany, if_true]
                        · simp only [hany, if_false]
                          rcases hit : iterElems v with _ | items
                          · rfl
                          · refine listAll_congr fun it hmem => ?_
                            have hmem2 : it ∈ items := List.take_subset _ _ hmem
                            have hle := pvSize_le_of_mem_iterElems hit hmem2
                            exact ih m it elemTy (by omega) (by omega)
                      · have ht2 : truthy v = false := Bool.not_eq_true _ ▸ Bool.of_not_eq_true ht
                        simp [ht2]
                  · simp only [if_neg hb3]
          · have hc2 : check_runtime_origin_compatibility (typeOf v) (originOf t) = false :=
              Bool.not_eq_true _ ▸ Bool.of_not_eq_true hc
            simp [hc2]

theorem extIsinstF_eq_wrapper {n : Nat} {v : PyVal} {t : Ty}
    (h : pvSize v + tySize t ≤ n) :
    extIsinstF n v t = extended_isinstance v t :=
  extIsinstF_congr n (pvSize v + tySize t) v t h (Nat.le_refl _)

theorem sameEquivClass_symm (o1 o2 : TyOrigin) :
    sameEquivClass o1 o2 = sameEquivClass o2 o1 := by
  unfold sameEquivClass
  exact listAny_congr fun s _ => Bool.and_comm _ _

theorem zipAll_swap (f : Ty → Ty → Bool) :
    ∀ l1 l2 : List Ty,
      (l1.zip l2).all (fun p => f p.1 p.2) = (l2.zip l1).all fun p => f p.2 p.1 := by
  intro l1
  induction l1 with
  | nil => intro l2; cases l2 <;> rfl
  | cons x xs ih =>
    intro l2
    cases l2 with
    | nil => rfl
    | cons y ys => simp [List.all_cons, ih ys]

theorem eqoF_symm : ∀ n t1 t2, eqoF n t1 t2 = eqoF n t2 t1 := by
  intro n
  induction n with
  | zero => intro t1 t2; rfl
  | succ n ih =>
    intro t1 t2
    have hsym := sameEquivClass_symm (originOf t1) (originOf t2)
    simp only [eqoF]
    by_cases he : originOf t1 = originOf t2
    · rw [if_pos he, if_pos he.symm]
    · have he2 : ¬originOf t2 = originOf t1 := fun h => he h.symm
      rw [if_neg he, if_neg he2]
      by_cases hs : sameEquivClass (originOf t1) (originOf t2) = true
      · rw [if_pos hs, if_pos (hsym ▸ hs)]
      · rw [if_neg hs, if_neg (fun h => hs (hsym ▸ h))]
        by_cases hu1 : originOf t1 = TyOrigin.unionO
        · by_cases hu2 : originOf t2 = TyOrigin.unionO
          · exact absurd (hu1.trans hu2.symm) he
          · rw [if_pos (Or.inl hu1), if_pos (Or.inr hu1)]
            rw [if_pos ⟨hu1, hu2⟩]
            rw [if_neg (fun h => hu2 h.1), if_pos ⟨hu1, hu2⟩]
            exact listAny_congr fun a _ => ih a t2
        · by_cases hu2 : originOf t2 = TyOrigin.unionO
          · rw [if_pos (Or.inr hu2), if_pos (Or.inl hu2)]
            rw [if_neg (fun h => hu1 h.1), if_pos ⟨hu2, hu1⟩]
            rw [if_pos ⟨hu2, hu1⟩]
            exact listAny_congr fun a _ => ih t1 a
          · rw [if_neg (fun h => h.elim hu1 hu2), if_neg (fun h => h.elim hu2 hu1)]

theorem is_equivalent_origin_symm (t1 t2 : Ty) :
    is_equivalent_origin t1 t2 = is_equivalent_origin t2 t1 := by
  unfold is_equivalent_origin
  rw [Nat.add_comm (tySize t2) (tySize t1)]
  exact eqoF_symm _ t1 t2

theorem ifcF_symm : ∀ n t1 t2, ifcF n t1 t2 = ifcF n t2 t1 := by
  intro n
  induction n with
  | zero => intro t1 t2; rfl
  | succ n ih =>
    intro t1 t2
    simp only [ifcF]
    rw [is_equivalent_origin_symm t1 t2]
    by_cases heq : is_equivalent_origin t2 t1 = true
    · simp only [heq, Bool.not_true, Bool.false_eq_true, if_false]
      cases ha : (argsOf t1).isEmpty <;> cases hb : (argsOf t2).isEmpty <;>
        simp only [Bool.and_true, Bool.and_false, Bool.true_and, Bool.false_and,
          Bool.false_eq_true, bne_self_eq_false, Bool.bne_true,
          Bool.bne_false, Bool.not_true, Bool.not_false, if_true, if_false]
      · by_cases hl : (argsOf t1).length = (argsOf t2).length
        · rw [if_neg (not_not_intro hl), if_neg (not_not_intro hl.symm)]
          calc ((argsOf t1).zip (argsOf t2)).all (fun p => ifcF n p.1 p.2)
              = ((argsOf t2).zip (argsOf t1)).all (fun p => ifcF n p.2 p.1) :=
                zipAll_swap _ _ _
            _ = ((argsOf t2).zip (argsOf t1)).all (fun p => ifcF n p.1 p.2) :=
                listAll_congr fun p _ => ih p.2 p.1
        · rw [if_pos hl, if_pos fun h => hl h.symm]
    · have heq2 : is_equivalent_origin t2 t1 = false :=
        Bool.not_eq_true _ ▸ Bool.of_not_eq_true heq
      simp [heq2]

theorem is_fully_compatible_symm (t1 t2 : Ty) :
    is_fully_compatible t1 t2 = is_fully_compatible t2 t1 := by
  unfold is_fully_compatible
  rw [Nat.add_comm (tySize t2) (tySize t1)]
  exact ifcF_symm _ t1 t2

theorem eqo_refl (t : Ty) : is_equivalent_origin t t = true := by
  unfold is_equivalent_origin
  have h : tySize t + tySize t = (tySize t + tySize t - 1) + 1 := by
    have := tySize_pos t; omega
  rw [h]
  simp only [eqoF]
  simp

theorem mem_zip_self {p : Ty × Ty} {l : List Ty} (h : p ∈ l.zip l) :
    p.1 = p.2 ∧ p.1 ∈ l := by
  induction l with
  | nil => cases h
  | cons x xs ih =>
    rw [List.zip_cons_cons] at h
    rcases List.mem_cons.mp h with rfl | h2
    · exact ⟨rfl, List.mem_cons_self _ _⟩
    · obtain ⟨h3, h4⟩ := ih h2
      exact ⟨h3, List.mem_cons_of_mem _ h4⟩

theorem ifcF_refl : ∀ n t, tySize t + tySize t ≤ n → ifcF n t t = true := by
  intro n
  induction n with
  | zero => intro t h; have := tySize_pos t; omega
  | succ n ih =>
    intro t h
    simp only [ifcF]
    rw [eqo_refl t]
    simp only [Bool.not_true, Bool.false_eq_true, if_false]
    by_cases he : (argsOf t).isEmpty = true
    · simp [he]
    · have he2 : (argsOf t).isEmpty = false :=
        Bool.not_eq_true _ ▸ Bool.of_not_eq_true he
      simp only [he2, Bool.and_false, Bool.false_eq_true, if_false,
        bne_self_eq_false, not_true]
      rw [List.all_eq_true]
      intro p hp
      obtain ⟨hpe, hpm⟩ := mem_zip_self hp
      have hlt := tySize_lt_of_mem_argsOf hpm
      rw [← hpe]
      exact ih p.1 (by omega)

theorem ifc_refl (t : Ty) : is_fully_compatible t t = true := by
  unfold is_fully_compatible
  exact ifcF_refl _ t (Nat.le_refl _)

theorem unionFree_argsOf {t a : Ty} (h : UnionFree t) (hm : a ∈ argsOf t) :
    UnionFree a := by
  cases h with
  | cls c => simp [argsOf] at hm
  | anyTy => simp [argsOf] at hm
  | metaVal s => simp [argsOf] at hm
  | generic c args hall => exact hall a hm
  | annotated base meta hb hall =>
    simp only [argsOf] at hm
    rcases List.mem_cons.mp hm with rfl | h2
    · exact hb
    · exact hall a h2

theorem unionFree_not_union {t : Ty} (h : UnionFree t) : is_union_type t = false := by
  cases h <;> rfl

theorem is_subtype_origin_refl (o : TyOrigin) : is_subtype_origin o o = true := by
  unfold is_subtype_origin
  rw [if_pos rfl]

theorem extIssubF_refl :
    ∀ n t, tySize t + tySize t ≤ n → UnionFree t → extIssubF n t t = true := by
  intro n
  induction n with
  | zero => intro t h _; have := tySize_pos t; omega
  | succ n ih =>
    intro t h huf
    have hnu := unionFree_not_union huf
    have hno : is_optional_type t = false := by
      unfold is_optional_type
      rw [hnu]
      rfl
    simp only [extIssubF]
    simp only [hnu, hno, Bool.false_eq_true, if_false]
    rw [is_subtype_origin_refl (originOf t)]
    simp only [Bool.not_true, Bool.false_eq_true, if_false]
    by_cases he : (argsOf t).isEmpty = true
    · simp [he]
    · have he2 : (argsOf t).isEmpty = false :=
        Bool.not_eq_true _ ▸ Bool.of_not_eq_true he
      simp only [he2, Bool.and_false, Bool.false_eq_true, if_false,
        bne_self_eq_false, not_true]
      rw [List.all_eq_true]
      intro p hp
      obtain ⟨hpe, hpm⟩ := mem_zip_self hp
      have hlt := tySize_lt_of_mem_argsOf hpm
      by_cases hany : isAnyTy p.2 = true
      · simp [hany]
      · rw [if_neg hany]
        rw [← hpe] at hany ⊢
        rw [if_neg hany]
        exact ih p.1 (by omega) (unionFree_argsOf huf hpm)

theorem extended_issubclass_refl {t : Ty} (h : UnionFree t) :
    extended_issubclass t t = true := by
  unfold extended_issubclass
  exact extIssubF_refl _ t (Nat.le_refl _) h

theorem take_min_length {α : Type} (l : List α) (n : Nat) :
    l.take (min n l.length) = l.take n := by
  rcases Nat.le_total n l.length with h | h
  · rw [Nat.min_eq_left h]
  · rw [Nat.min_eq_right h, List.take_length, List.take_of_length_le h]

theorem ext_isinst_list_char (xs : List PyVal) (t : Ty) :
    extended_isinstance (.vList xs) (.generic .list [t]) =
      (if xs.isEmpty then true
       else if isAnyTy t then true
       else (xs.take 10).all fun it => extended_isinstance it t) := by
  show extIsinstF (pvSize (.vList xs) + tySize (.generic .list [t])) _ _ = _
  have hpos := pvSize_pos (PyVal.vList xs)
  have hsz : pvSize (PyVal.vList xs) + tySize (Ty.generic .list [t]) =
      (pvSize (PyVal.vList xs) + tySize (Ty.generic .list [t]) - 1) + 1 := by
    omega
  have hts : tySize t < tySize (Ty.generic .list [t]) :=
    tySize_lt_of_mem_argsOf (List.mem_cons_self t [])
  rw [hsz]
  simp only [extIsinstF]
  have h1 : is_union_type (Ty.generic .list [t]) = false := rfl
  have h2 : is_optional_type (Ty.generic .list [t]) = false := rfl
  have h3 : check_runtime_origin_compatibility (typeOf (PyVal.vList xs))
      (originOf (Ty.generic .list [t])) = true := rfl
  simp only [h1, h2, h3, Bool.false_eq_true, Bool.not_true, if_false]
  have h4 : (argsOf (Ty.generic .list [t])).isEmpty = false := rfl
  simp only [h4, Bool.false_eq_true, if_false]
  have hcond : originOf (Ty.generic .list [t]) = TyOrigin.pc .list ∨
      originOf (Ty.generic .list [t]) = TyOrigin.pc .tuple ∨
      is_equivalent_origin_o (originOf (Ty.generic .list [t]))
        (TyOrigin.pc .list) = true := Or.inl rfl
  rw [if_pos hcond]
  simp only [argsOf]
  have h5 : truthy (PyVal.vList xs) = !xs.isEmpty := rfl
  simp only [h5, Bool.not_not]
  by_cases hxe : xs.isEmpty = true
  · simp [hxe]
  · have hxe2 : xs.isEmpty = false := Bool.not_eq_true _ ▸ Bool.of_not_eq_true hxe
    simp only [hxe2, Bool.not_false, Bool.false_eq_true, if_false, if_true]
    by_cases hany : isAnyTy t = true
    · simp [hany]
    · simp only [hany, Bool.false_eq_true, if_false]
      simp only [iterElems, sampleSize, lenOf]
      rw [take_min_length]
      refine listAll_congr fun it hmem => ?_
      have hmem2 : it ∈ xs := List.take_subset _ _ hmem
      have hvs : pvSize it < pvSize (PyVal.vList xs) := by
        have := pvSize_lt_of_mem hmem2
        simp [pvSize]
        omega
      exact extIsinstF_eq_wrapper (by omega)

/-- Counterexample to claim C1 as stated: with `A = int`, `B = str` and
`C = Union[int, str]` itself, `extended_issubclass(Union[A,B], C)` is `false`
although `extended_issubclass(A, C)` and `extended_issubclass(B, C)` are both
`true` — the union-on-the-right branch runs first and decomposes the
supertype, so the claimed equivalence fails when `C` is a union. -/
theorem c1_counterexample :
    extended_issubclass (.union [.cls .intC, .cls .strC])
        (.union [.cls .intC, .cls .strC]) = false ∧
    extended_issubclass (.cls .intC) (.union [.cls .intC, .cls .strC]) = true ∧
    extended_issubclass (.cls .strC) (.union [.cls .intC, .cls .strC]) = true := by
  decide

/-- Claim C1 (amended): for all `A`, `B`, `C`, the right-hand union rule
`isSubtype(C, Union[A,B]) = isSubtype(C,A) or isSubtype(C,B)` holds
unconditionally, while the left-hand rule `isSubtype(Union[A,B], C) =
isSubtype(A,C) and isSubtype(B,C)` holds provided `C` is not itself a union
expression (the counterexample forces that proviso). -/
theorem c1_union_elimination_amended :
    ∀ A B C : Ty,
      (is_union_type C = false →
        extended_issubclass (.union [A, B]) C =
          (extended_issubclass A C && extended_issubclass B C)) ∧
      extended_issubclass C (.union [A, B]) =
        (extended_issubclass C A || extended_issubclass C B) := by
  intro A B C
  have hA : tySize A < tySize (Ty.union [A, B]) :=
    tySize_lt_of_mem_argsOf (List.mem_cons_self A [B])
  have hB : tySize B < tySize (Ty.union [A, B]) :=
    tySize_lt_of_mem_argsOf (List.mem_cons_of_mem A (List.mem_cons_self B []))
  have hCpos := tySize_pos C
  have hUpos := tySize_pos (Ty.union [A, B])
  constructor
  · intro hC
    show extIssubF (tySize (Ty.union [A, B]) + tySize C) (Ty.union [A, B]) C = _
    have hsz : tySize (Ty.union [A, B]) + tySize C =
        (tySize (Ty.union [A, B]) + tySize C - 1) + 1 := by omega
    rw [hsz]
    simp only [extIssubF]
    simp only [hC, Bool.false_eq_true, if_false]
    have hu : is_union_type (Ty.union [A, B]) = true := rfl
    simp only [hu, if_true]
    simp only [argsOf, List.all_cons, List.all_nil, Bool.and_true]
    rw [extIssubF_eq_wrapper (by omega), extIssubF_eq_wrapper (by omega)]
  · show extIssubF (tySize C + tySize (Ty.union [A, B])) C (Ty.union [A, B]) = _
    have hsz : tySize C + tySize (Ty.union [A, B]) =
        (tySize C + tySize (Ty.union [A, B]) - 1) + 1 := by omega
    rw [hsz]
    simp only [extIssubF]
    have hu : is_union_type (Ty.union [A, B]) = true := rfl
    simp only [hu, if_true]
    simp only [argsOf, List.any_cons, List.any_nil, Bool.or_false]
    rw [extIssubF_eq_wrapper (by omega), extIssubF_eq_wrapper (by omega)]

/-- Witness for the amended claim C1 at `A = int`, `B = str`,
`C = Sequence` (not a union) and, for the right-hand rule, `C = bool`. -/
theorem c1_witness :
    (extended_issubclass (.union [.cls .intC, .cls .strC]) (.cls .seqA) =
      (extended_issubclass (.cls .intC) (.cls .seqA) &&
        extended_issubclass (.cls .strC) (.cls .seqA))) ∧
    extended_issubclass (.cls .boolC) (.union [.cls .intC, .cls .strC]) =
      (extended_issubclass (.cls .boolC) (.cls .intC) ||
        extended_issubclass (.cls .boolC) (.cls .strC)) :=
  ⟨(c1_union_elimination_amended (.cls .intC) (.cls .strC) (.cls .seqA)).1 (by decide),
   (c1_union_elimination_amended (.cls .intC) (.cls .strC) (.cls .boolC)).2⟩

/-- Counterexample to claim C2 as stated: reflexivity of
`extended_issubclass` fails as soon as a union occurs anywhere in the
expression — even nested, as in `List[Optional[int]]` — because the union
supertype is decomposed before the union subtype. -/
theorem c2_counterexample :
    extended_issubclass (.generic .list [.union [.cls .intC, .cls .noneT]])
      (.generic .list [.union [.cls .intC, .cls .noneT]]) = false := by
  decide

/-- Claim C2 (amended): `extended_issubclass(e, e)` is true for every type
expression containing no union (hence no `Optional`) anywhere inside, and
`is_fully_compatible(e, e)` is true for every type expression `e`. -/
theorem c2_reflexivity_amended :
    ∀ e : Ty, (UnionFree e → extended_issubclass e e = true) ∧
      is_fully_compatible e e = true :=
  fun e => ⟨fun h => extended_issubclass_refl h, ifc_refl e⟩

/-- Witness for the amended claim C2 at `e = List[int]` (union-free) and at
the union expression `Optional[int]` for the `is_fully_compatible` half. -/
theorem c2_witness :
    extended_issubclass (.generic .list [.cls .intC])
      (.generic .list [.cls .intC]) = true ∧
    is_fully_compatible (.union [.cls .intC, .cls .noneT])
      (.union [.cls .intC, .cls .noneT]) = true :=
  ⟨(c2_reflexivity_amended (.generic .list [.cls .intC])).1
      (UnionFree.generic _ _ fun a ha => by
        rcases List.mem_cons.mp ha with rfl | h2
        · exact UnionFree.cls _
        · cases h2),
   (c2_reflexivity_amended (.union [.cls .intC, .cls .noneT])).2⟩

/-- Claim C3 is right and the code is wrong: the `Optional`-on-the-right
reduction at `type_check.py` lines 96-103 is dead code, because an
`Optional` supertype is a `Union` and the union branch at line 81 runs
first.  Evaluating the code at the failing input:
`extended_issubclass(Optional[int], Optional[int])` is `false` although the
claim (and the dead branch) reduce it to `extended_issubclass(int, int)`,
which is `true`; likewise for a non-Optional subtype the code computes
`sub <: U or sub <: NoneType`, not `sub <: U`, so
`extended_issubclass(NoneType, Optional[int])` is `true` while
`extended_issubclass(NoneType, int)` is `false`. -/
theorem c3_optional_right_code_bug :
    extended_issubclass (.union [.cls .intC, .cls .noneT])
        (.union [.cls .intC, .cls .noneT]) = false ∧
    is_optional_type (.union [.cls .intC, .cls .noneT]) = true ∧
    extended_issubclass (.cls .intC) (.cls .intC) = true ∧
    extended_issubclass (.cls .noneT) (.union [.cls .intC, .cls .noneT]) = true ∧
    extended_issubclass (.cls .noneT) (.cls .intC) = false := by
  decide

/-- Counterexample to claim C4 as stated: `deque` and `list` are co-members
of an equivalence class (the `AbcSequence` entry of `_EQUIV_ORIGIN`), and
`isSubtype(Deque[int], List[int])` holds, yet `list` is not reachable from
`deque` by an abstraction edge — the judgment goes through the collection
specialization shortcut instead. -/
theorem c4_counterexample :
    sameEquivClass (.pc .deque) (.pc .list) = true ∧
    is_subtype_origin (.pc .deque) (.pc .list) = true ∧
    abstractEdge .deque .list = false ∧
    extended_issubclass (.generic .deque [.cls .intC])
      (.generic .list [.cls .intC]) = true := by
  decide

/-- Claim C4 (amended): for origins that are co-members of an equivalence
class, the origin-level subtype judgment holds exactly when the origins are
equal, or the subtype origin is a registered collection specialization
compatible with the supertype origin, or the supertype origin is reachable
from the subtype origin by an abstraction edge; in particular
`isSubtype(List[int], Sequence[int])` is true and
`isSubtype(Sequence[int], List[int])` is false. -/
theorem c4_direction_amended :
    ∀ c1 c2 : PyClass, sameEquivClass (.pc c1) (.pc c2) = true →
      (is_subtype_origin (.pc c1) (.pc c2) = true ↔
        (c1 = c2 ∨
          is_collection_specialization_subtype (.pc c1) (.pc c2) = true ∨
          abstractEdge c1 c2 = true)) ∧
      extended_issubclass (.generic .list [.cls .intC])
        (.generic .seqA [.cls .intC]) = true ∧
      extended_issubclass (.generic .seqA [.cls .intC])
        (.generic .list [.cls .intC]) = false := by
  intro c1 c2 hco
  refine ⟨?_, by decide, by decide⟩
  unfold is_subtype_origin
  by_cases he : (TyOrigin.pc c1) = (TyOrigin.pc c2)
  · rw [if_pos he]
    have hcc : c1 = c2 := by injection he
    simp [hcc]
  · rw [if_neg he]
    have hne : ¬c1 = c2 := fun hh => he (hh ▸ rfl)
    by_cases hs : is_collection_specialization_subtype (.pc c1) (.pc c2) = true
    · simp only [hs, if_true]
      simp [hs]
    · rw [if_neg hs]
      have heq : is_equivalent_origin_o (.pc c1) (.pc c2) = true := by
        unfold is_equivalent_origin_o
        rw [if_neg he, if_pos hco]
      rw [if_pos heq]
      unfold is_abstraction_compatible
      cases hca : concreteToAbstract c1 with
      | some s =>
        simp only [hca]
        constructor
        · intro hh
          refine Or.inr (Or.inr ?_)
          unfold abstractEdge
          rw [hca]
          simpa [setContains] using hh
        · rintro (h | h | h)
          · exact absurd h hne
          · exact absurd h hs
          · unfold abstractEdge at h
            rw [hca] at h
            simpa [setContains] using h
      | none =>
        simp only [hca]
        constructor
        · intro hh
          exact absurd (of_decide_eq_true hh) he
        · rintro (h | h | h)
          · exact absurd h hne
          · exact absurd h hs
          · unfold abstractEdge at h
            rw [hca] at h
            exact absurd h (by simp)

/-- Witness for the amended claim C4 at the co-member pair
`(list, Sequence)`. -/
theorem c4_witness :
    (is_subtype_origin (.pc .list) (.pc .seqA) = true ↔
      (PyClass.list = PyClass.seqA ∨
        is_collection_specialization_subtype (.pc .list) (.pc .seqA) = true ∨
        abstractEdge .list .seqA = true)) ∧
    extended_issubclass (.generic .list [.cls .intC])
      (.generic .seqA [.cls .intC]) = true ∧
    extended_issubclass (.generic .seqA [.cls .intC])
      (.generic .list [.cls .intC]) = false :=
  c4_direction_amended .list .seqA (by decide)

/-- Claim C5 is right about the subtype directions but the
`fullyCompatible` half is a code bug: `_EQUIV_ORIGIN` registers the
`typing.OrderedDict` alias, while the runtime origin of every
`OrderedDict[...]` expression is `collections.OrderedDict`, which no
equivalence class contains, so `is_fully_compatible(OrderedDict[str, int],
Dict[str, int])` is `false` even though the package documentation promises
`OrderedDict ~ dict` (the registration works for `defaultdict`, whose
`collections` class is in the table). -/
theorem c5_specialization_collapse_code_bug :
    is_fully_compatible (.generic .odict [.cls .strC, .cls .intC])
      (.generic .dict [.cls .strC, .cls .intC]) = false ∧
    extended_issubclass (.generic .odict [.cls .strC, .cls .intC])
      (.generic .dict [.cls .strC, .cls .intC]) = true ∧
    extended_issubclass (.generic .dict [.cls .strC, .cls .intC])
      (.generic .odict [.cls .strC, .cls .intC]) = false ∧
    is_fully_compatible (.generic .defaultdict [.cls .strC, .cls .intC])
      (.generic .dict [.cls .strC, .cls .intC]) = true := by
  decide

/-- Claim C6: runtime conformance on a sequence checks at most the first 10
elements in iteration order — a 1,000-element list whose elements at
positions 11..1000 violate the declared element type still conforms, an
empty sequence conforms for every declared element type, and in general the
result on `List[T]` depends only on the first 10 elements. -/
theorem c6_sampling_bound :
    extended_isinstance
      (.vList (List.replicate 10 (.vInt 0) ++ List.replicate 990 (.vStr "x")))
      (.generic .list [.cls .intC]) = true ∧
    (∀ t : Ty, extended_isinstance (.vList []) (.generic .list [t]) = true) ∧
    (∀ (xs : List PyVal) (t : Ty),
      extended_isinstance (.vList xs) (.generic .list [t]) =
        extended_isinstance (.vList (xs.take 10)) (.generic .list [t])) := by
  refine ⟨?_, fun t => by rw [ext_isinst_list_char]; rfl, fun xs t => ?_⟩
  · rw [ext_isinst_list_char]
    decide
  · rw [ext_isinst_list_char, ext_isinst_list_char]
    have hte : (xs.take 10).isEmpty = xs.isEmpty := by
      cases xs <;> rfl
    rw [hte, List.take_take]
    rw [Nat.min_self]

/-- Counterexample to claim C7 as stated: there is no dedicated
`DepthExceeded` condition anywhere in the code — `safe_issubclass` catches
`RecursionError` and returns plain `False`, indistinguishable from "not
compatible": with the stack budget exhausted the query below returns
`false`, with one more frame it returns `true`, and an honestly
incompatible query returns the same `false`. -/
theorem c7_counterexample :
    safe_issubclass 0 (some (.union [.cls .list])) (.cls .seqA) = false ∧
    safe_issubclass 1 (some (.union [.cls .list])) (.cls .seqA) = true ∧
    safe_issubclass 1 (some (.cls .strC)) (.cls .intC) = false := by
  decide

/-- Claim C7 (amended): the comparison entry points are total boolean
functions; `None` input yields `false`; a `TypeError` raised by the nominal
`issubclass` fallback on a non-class `classinfo` (here a parameterized
generic) is caught locally and yields `false`; a recursion-depth overrun
inside `safe_issubclass` is caught as `RecursionError` and also yields
`false` — there is no dedicated `DepthExceeded` condition; and the guarded
fallback of `_is_subtype_origin` yields `false` for non-class origins
instead of raising. -/
theorem c7_error_handling_amended :
    (∀ (fuel : Nat) (ci : Ty), safe_issubclass fuel none ci = false) ∧
    issubclassPrim .intC (.generic .list [.cls .intC]) = .error .typeError ∧
    (∀ fuel : Nat,
      safe_issubclass fuel (some (.cls .intC)) (.generic .list [.cls .intC]) = false) ∧
    (∀ (members : List Ty) (ci : Ty),
      safe_issubclass 0 (some (.union members)) ci = false) ∧
    is_subtype_origin (.pc .tyList) (.pc .intC) = false :=
  ⟨fun fuel _ => by cases fuel <;> rfl, rfl, fun fuel => by cases fuel <;> rfl,
   fun _ _ => rfl, by decide⟩

/-- Claim C8: metadata stripping is idempotent, leaves unwrapped expressions
unchanged, and strips all metadata, for every type expression without a
directly nested `Annotated` wrapper (Python's `Annotated[...]` constructor
flattens nested wrappers, so every constructible expression qualifies). -/
theorem c8_metadata_idempotence :
    ∀ e : Ty, noNestedAnnotated e = true →
      strip_annotated (strip_annotated e) = strip_annotated e ∧
      (is_annotated_type e = false → strip_annotated e = e) ∧
      get_annotated_metadata (strip_annotated e) = [] := by
  intro e h
  cases e with
  | annotated base meta =>
    have hb : is_annotated_type base = false := by
      unfold noNestedAnnotated at h
      simpa using h
    have hstrip : strip_annotated (Ty.annotated base meta) = base := rfl
    refine ⟨?_, ?_, ?_⟩
    · rw [hstrip]
      unfold strip_annotated
      simp [hb]
    · intro hfalse
      simp [is_annotated_type, originOf] at hfalse
    · rw [hstrip]
      unfold get_annotated_metadata
      simp [hb]
  | cls c => exact ⟨rfl, fun _ => rfl, rfl⟩
  | generic c args => exact ⟨rfl, fun _ => rfl, rfl⟩
  | union args => exact ⟨rfl, fun _ => rfl, rfl⟩
  | anyTy => exact ⟨rfl, fun _ => rfl, rfl⟩
  | metaVal s => exact ⟨rfl, fun _ => rfl, rfl⟩

/-- Witness for claim C8 at `e = Annotated[int, "positive"]`. -/
theorem c8_witness :
    strip_annotated (strip_annotated (.annotated (.cls .intC) [.metaVal "positive"])) =
      strip_annotated (.annotated (.cls .intC) [.metaVal "positive"]) ∧
    (is_annotated_type (Ty.annotated (.cls .intC) [.metaVal "positive"]) = false →
      strip_annotated (.annotated (.cls .intC) [.metaVal "positive"]) =
        .annotated (.cls .intC) [.metaVal "positive"]) ∧
    get_annotated_metadata
      (strip_annotated (.annotated (.cls .intC) [.metaVal "positive"])) = [] :=
  c8_metadata_idempotence (.annotated (.cls .intC) [.metaVal "positive"]) (by decide)

/-- Claim C9: `is_equivalent_origin` and `is_fully_compatible` are
symmetric on all type expressions, unions included. -/
theorem c9_symmetry :
    ∀ t1 t2 : Ty,
      is_equivalent_origin t1 t2 = is_equivalent_origin t2 t1 ∧
      is_fully_compatible t1 t2 = is_fully_compatible t2 t1 :=
  fun t1 t2 => ⟨is_equivalent_origin_symm t1 t2, is_fully_compatible_symm t1 t2⟩

/-- Claim C10: a union is `Optional` exactly when it has two members one of
which is `type(None)`; `extended_isinstance` on any union is the plain
disjunction over its members (the dedicated `Optional` branch is
unreachable), and `None` still conforms to a three-member union containing
the `None` marker through that member, while such a union is not treated as
`Optional`. -/
theorem c10_optional_shape :
    (∀ members : List Ty,
      is_optional_type (.union members) =
        (members.length = 2 && members.any isNoneType)) ∧
    (∀ (v : PyVal) (members : List Ty),
      extended_isinstance v (.union members) =
        members.any fun a => extended_isinstance v a) ∧
    extended_isinstance .vNone (.union [.cls .intC, .cls .strC, .cls .noneT]) = true ∧
    is_optional_type (.union [.cls .intC, .cls .strC, .cls .noneT]) = false := by
  refine ⟨fun members => rfl, fun v members => ?_, by decide, by decide⟩
  show extIsinstF (pvSize v + tySize (Ty.union members)) v (Ty.union members) = _
  have hvpos := pvSize_pos v
  have hsz : pvSize v + tySize (Ty.union members) =
      (pvSize v + tySize (Ty.union members) - 1) + 1 := by omega
  rw [hsz]
  simp only [extIsinstF]
  have hu : is_union_type (Ty.union members) = true := rfl
  simp only [hu, if_true]
  simp only [argsOf]
  refine listAny_congr fun a ha => ?_
  have := tySize_lt_of_mem_argsOf (t := Ty.union members) (by simpa [argsOf] using ha)
  exact extIsinstF_eq_wrapper (by omega)
